import Mathlib

/-!
Verification of the activation storage/retrieval subsystem of the
rnnalyse/diagNNose repository, a shallow embedding of
src/rnnalyse/activations/activation_reader.py.

Modelling conventions:
* The RangeTable (a Python dict from sentence key to a (start, end) row
  span, insertion ordered) is an association list with distinct keys.
* The ActivationMatrix (a numpy float32 2D array) is a list of rows;
  scalar payloads are abstracted to integers since no claim concerns
  arithmetic on activation values, only row selection and shapes.
* numpy fancy indexing, basic slicing and slice assignment with
  broadcasting are modelled explicitly (npIndex, npSliceList, setSlice).
* Python falsy tests on integers (used for slice bounds in
  ActivationReader._create_range_from_key) are modelled by pyTruthy.
* Errors (AssertionError, KeyError, IndexError, ValueError, EOFError
  handling) are modelled with Except String; the distinct messages keep
  the error classes apart.
-/

namespace ActivationReader

/-- A (start, end) row span of one extracted sentence
(Range in typedefs/extraction.py). -/
abbrev Range := Nat × Nat

/-- ActivationRanges: dict from sentence key to row span, kept as an
insertion-ordered association list (Python dicts preserve insertion
order); keys are distinct. -/
abbrev ActivationRanges := List (Nat × Range)

/-- The in-memory activation matrix: a list of rows. -/
abbrev Matrix := List (List Int)

/-- ActivationName: a (layer, name) tuple. -/
abbrev ActivationName := Nat × String

/-- An index value as accepted by ActivationReader.__getitem__ after
key parsing: a bare int, a list of ints, or a slice with optional
start/stop/step. -/
inductive PyIndex where
  | int (i : Nat)
  | list (ks : List Nat)
  | slc (start stop step : Option Nat)
deriving DecidableEq, Repr

/-- The indextype argument of __getitem__: one of the strings
given on line 111 of activation_reader.py. -/
inductive IndexType where
  | pos
  | key
  | all
deriving DecidableEq, Repr

/-- Python truthiness defaulting `x if x else d` on an optional integer:
both None and 0 are falsy (activation_reader.py lines 132-133). -/
def pyTruthy (o : Option Nat) (d : Nat) : Nat :=
  match o with
  | none => d
  | some v => if v = 0 then d else v

/-- max(self.activation_ranges.keys()) over a non-empty table. -/
def maxKey (rt : ActivationRanges) : Nat :=
  (rt.map Prod.fst).foldr max 0

/-- numpy fancy indexing xs[inds]: selects the given positions, raising
IndexError (None here) when a position is out of bounds. -/
def npIndex {α : Type} [Inhabited α] (xs : List α) (inds : List Nat) :
    Option (List α) :=
  if inds.all (fun i => decide (i < xs.length)) then
    some (inds.map (fun i => xs.getD i default))
  else none

/-- numpy basic slicing xs[start:stop:step] for a non-negative start and
stop and a positive step: positions start, start+step, ... below stop,
clamped to the length. -/
def npSliceList {α : Type} (xs : List α) (start stop step : Nat) :
    List α :=
  ((List.range xs.length).filter
    (fun i => decide (start ≤ i) && decide (i < stop) &&
      decide ((i - start) % step = 0))).filterMap (fun i => xs.get? i)

/-- ActivationReader._create_indices_from_range (lines 141-146): expand
each (mi, ma) span to the explicit row indices mi..ma-1 and concatenate
with np.concatenate, which raises ValueError when handed an empty list
of arrays (a non-empty list whose members are empty ranges is fine). -/
def create_indices_from_range (ranges : List Range) :
    Except String (List Nat) :=
  if ranges.isEmpty then
    .error "ValueError: need at least one array to concatenate"
  else
    .ok (ranges.flatMap (fun r => List.range' r.1 (r.2 - r.1)))

/-- The default slice stop in key mode, max(keys) + 1
(line 133); Python max raises ValueError on an empty dict. -/
def defaultStop (rt : ActivationRanges) : Except String Nat :=
  if rt.isEmpty then .error "ValueError: max() arg is an empty sequence"
  else .ok (maxKey rt + 1)

/-- The slice branch of _create_range_from_key (lines 130-134) after the
step assertion: start and stop pass through Python falsy defaulting, then
the ranges of all keys k with start ≤ k < stop are kept in table order. -/
def sliceRanges (rt : ActivationRanges) (start stop : Option Nat) :
    Except String (List Range) := do
  let s := pyTruthy start 0
  let e ←
    match stop with
    | none => defaultStop rt
    | some v => if v = 0 then defaultStop rt else pure v
  pure ((rt.filter (fun p => decide (s ≤ p.1) && decide (p.1 < e))).map
    Prod.snd)

/-- The list branch of _create_range_from_key (line 128): the
comprehension [self.activation_ranges[r] for r in key], which raises
KeyError at the first missing key. -/
def lookupKeys (rt : ActivationRanges) : List Nat → Except String (List Range)
  | [] => .ok []
  | k :: ks =>
    match List.lookup k rt with
    | some r => (lookupKeys rt ks).map (fun rs => r :: rs)
    | none => .error "KeyError"

/-- ActivationReader._create_range_from_key (lines 126-139): a list of
keys is looked up directly in the table (KeyError when absent); a slice
must have unit step (assertion on line 131) and selects by key bounds;
any other index shape raises KeyError. -/
def create_range_from_key (rt : ActivationRanges) (index : PyIndex) :
    Except String (List Range) :=
  match index with
  | .list ks => lookupKeys rt ks
  | .slc start stop step =>
    match step with
    | none => sliceRanges rt start stop
    | some st =>
      if st = 1 then sliceRanges rt start stop
      else Except.error "Step slicing not supported for sen key index"
  | .int _ => Except.error "Type of index is incompatible"

/-- Gather rows of the matrix at the computed indices
(self.activations[inds], line 104); IndexError when out of bounds. -/
def gatherRows (mat : Matrix) (inds : List Nat) : Except String Matrix :=
  match npIndex mat inds with
  | some rows => .ok rows
  | none => .error "IndexError"

/-- The int-to-singleton-list normalisation done by _parse_key
(lines 121-122) before mode dispatch. -/
def normIndex (key : PyIndex) : PyIndex :=
  match key with
  | .int i => PyIndex.list [i]
  | k => k

/-- The position branch of __getitem__ (line 102):
np.array(list(self.activation_ranges.values()))[index], resolving the
index against the array of table values by fancy indexing or numpy
basic slicing. -/
def posRanges (rt : ActivationRanges) (index : PyIndex) :
    Except String (List Range) :=
  let vals := rt.map Prod.snd
  match index with
  | .list ks =>
    match npIndex vals ks with
    | some rs => .ok rs
    | none => .error "IndexError"
  | .slc start stop step =>
    let st := step.getD 1
    if st = 0 then .error "ValueError: slice step cannot be zero"
    else .ok (npSliceList vals (start.getD 0) (stop.getD vals.length) st)
  | .int i =>
    match npIndex vals [i] with
    | some rs => .ok rs
    | none => .error "IndexError"

/-- ActivationReader.__getitem__ (lines 58-104) after key parsing, over
an explicit table and cached matrix. A bare int index is wrapped into a
singleton list by _parse_key (lines 121-122). indextype all indexes the
matrix directly; key resolves ranges by table lookup; pos indexes the
array of table values by position or slice, then both expand the ranges
to row indices and gather. -/
def getitem (rt : ActivationRanges) (acts : Option Matrix)
    (key : PyIndex) (ty : IndexType) : Except String Matrix :=
  match acts with
  | none => .error "self.activations should be set first"
  | some mat =>
    let index := normIndex key
    match ty with
    | .all =>
      match index with
      | .list ks => gatherRows mat ks
      | .slc start stop step =>
        let st := step.getD 1
        if st = 0 then .error "ValueError: slice step cannot be zero"
        else .ok (npSliceList mat (start.getD 0) (stop.getD mat.length) st)
      | .int i => gatherRows mat [i]
    | .key => do
      let ranges ← create_range_from_key rt index
      let inds ← create_indices_from_range ranges
      gatherRows mat inds
    | .pos => do
      let ranges ← posRanges rt index
      let inds ← create_indices_from_range ranges
      gatherRows mat inds

/-- One pickled activation chunk: the rows of one extracted sentence. -/
abbrev Chunk := List (List Int)

/-- numpy broadcasting of one row into width w: the row is used as is
when its length is w, replicated when its length is 1, and incompatible
otherwise. -/
def broadcastRow (row : List Int) (w : Nat) : Option (List Int) :=
  if row.length = w then some row
  else if row.length = 1 then some (List.replicate w (row.headD 0))
  else none

/-- Broadcast every row of a chunk to width w, failing when any row is
incompatible. -/
def broadcastRows (c : Chunk) (w : Nat) : Option (List (List Int)) :=
  match c with
  | [] => some []
  | r :: t =>
    match broadcastRow r w, broadcastRows t w with
    | some r2, some t2 => some (r2 :: t2)
    | _, _ => none

/-- numpy slice assignment activations[n:n+i] = chunk (line 214) on a
matrix of mat.length rows and width w: the target slice is clamped to
the matrix bounds, the chunk must broadcast to the slice shape
(equal row count, or a single row replicated; each row must broadcast
to width w), and the rows are written in place. ValueError (None here)
when the shapes cannot broadcast. -/
def setSlice (mat : Matrix) (n : Nat) (chunk : Chunk) (w : Nat) :
    Option Matrix :=
  let i := chunk.length
  let lo := min n mat.length
  let s := min (n + i) mat.length - lo
  let rows? : Option (List (List Int)) :=
    if i = s then broadcastRows chunk w
    else if i = 1 then
      (broadcastRow (chunk.headD []) w).map (List.replicate s)
    else none
  rows?.map (fun rows => mat.take lo ++ rows ++ mat.drop (lo + rows.length))

/-- The loading loop of read_activations (lines 202-217): chunks are
consumed in order (EOFError, the end of the list, is a normal break);
the matrix of shape (data_len, hidden_size) is allocated on the first
chunk with the hidden size taken from that chunk (np.empty contents are
modelled as zero rows), and each chunk is slice-assigned at the next
free row offset. -/
def read_loop (data_len : Nat) :
    List Chunk → Option (Nat × Matrix) → Nat → Except String (Option Matrix)
  | [], acc, _ => .ok (acc.map Prod.snd)
  | c :: cs, acc, n =>
    let wm : Nat × Matrix :=
      match acc with
      | none =>
        let w := (c.headD []).length
        (w, List.replicate data_len (List.replicate w 0))
      | some p => p
    match setSlice wm.2 n c wm.1 with
    | none => .error "ValueError: could not broadcast"
    | some m => read_loop data_len cs (some (wm.1, m)) (n + c.length)

/-- ActivationReader.read_activations (lines 178-219): reads the chunk
stream of one activation name into a matrix with data_len rows
(data_len is len(self.labels)); returns None for an empty stream. -/
def read_activations (data_len : Nat) (chunks : List Chunk) :
    Except String (Option Matrix) :=
  read_loop data_len chunks none 0

/-- The cache state of a reader: the active activation name and the
matrix currently read into ram (lines 50-56). -/
structure ReaderState where
  activation_name : Option ActivationName
  activations : Option Matrix
deriving DecidableEq, Repr

/-- The activations property setter (lines 170-176): assigning None
clears the cached matrix but keeps the recorded activation name;
assigning a name reloads (through the given read function) only when it
differs from the recorded name. -/
def set_activations (read : ActivationName → Option Matrix)
    (s : ReaderState) (arg : Option ActivationName) : ReaderState :=
  match arg with
  | none => { s with activations := none }
  | some a =>
    if some a ≠ s.activation_name then
      { activation_name := some a, activations := read a }
    else s

/-- Python truncating conversion int(q) on an exact rational:
rounds toward zero (the train/test split ratio, a Python float, is
modelled as an exact rational). -/
def pyInt (q : ℚ) : Int :=
  Int.tdiv q.num (q.den : Int)

/-- Clamp a Python slice bound to a list of length n: negative bounds
count from the end, and bounds are clamped into [0, n]. -/
def pyClampIndex (n : Nat) (i : Int) : Nat :=
  if i < 0 then ((n : Int) + i).toNat else min i.toNat n

/-- Python list slicing l[:i]. -/
def pyTake {α : Type} (l : List α) (i : Int) : List α :=
  l.take (pyClampIndex l.length i)

/-- Python list slicing l[i:]. -/
def pyDrop {α : Type} (l : List α) (i : Int) : List α :=
  l.drop (pyClampIndex l.length i)

/-- The four arrays returned by create_data_split (lines 251-256). -/
structure DataDict where
  train_x : Matrix
  train_y : List Int
  test_x : Matrix
  test_y : List Int
deriving DecidableEq, Repr

/-- numpy fancy indexing of the label vector. -/
def gatherLabels (labels : List Int) (inds : List Nat) :
    Except String (List Int) :=
  match npIndex labels inds with
  | some l => .ok l
  | none => .error "IndexError"

/-- data_size on line 244: the subset size, or len(labels) for the -1
sentinel. -/
def dataSize (labels : List Int) (data_subset_size : Int) : Nat :=
  if data_subset_size = -1 then labels.length else data_subset_size.toNat

/-- Lines 244-256 of create_data_split, after the activations were
loaded: compute the split point int(data_size * ratio), partition the
random permutation there, and gather the four arrays. -/
def split_data (labels : List Int) (activations : Matrix)
    (perm : List Nat) (data_subset_size : Int) (train_test_split : ℚ) :
    Except String DataDict := do
  let split := pyInt ((dataSize labels data_subset_size : ℚ) *
    train_test_split)
  let train_indices := pyTake perm split
  let test_indices := pyDrop perm split
  let tx ← gatherRows activations train_indices
  let ty ← gatherLabels labels train_indices
  let sx ← gatherRows activations test_indices
  let sy ← gatherLabels labels test_indices
  pure ⟨tx, ty, sx, sy⟩

/-- ActivationReader.create_data_split (lines 221-256). data_len is
len(self.labels). The permutation produced by
np.random.choice(range(data_size), data_size, replace=False) is passed
in explicitly as perm (randomness is external input). The subset size
is validated first (AssertionError) when it is not the -1 sentinel;
then the chunk stream is read and the permutation is partitioned at
the split point. -/
def create_data_split (labels : List Int) (chunks : List Chunk)
    (perm : List Nat) (data_subset_size : Int) (train_test_split : ℚ) :
    Except String DataDict :=
  let data_len := labels.length
  if data_subset_size ≠ -1 ∧
      ¬(0 < data_subset_size ∧ data_subset_size ≤ (data_len : Int)) then
    .error "Size of subset must be positive and not bigger than the whole data set."
  else do
    let acts? ← read_activations data_len chunks
    match acts? with
    | none => .error "TypeError: NoneType object is not subscriptable"
    | some activations =>
      split_data labels activations perm data_subset_size train_test_split

/-- The total number of rows of a chunk stream. -/
def totalRows (chunks : List Chunk) : Nat :=
  (chunks.map List.length).sum

/-- The number of rows accumulated before chunk j of the stream, that
is, the loop variable n when chunk j is about to be written. -/
def rowsBefore (chunks : List Chunk) (j : Nat) : Nat :=
  totalRows (chunks.take j)

/-- The RangeTable invariant of the spec data model: in table order the
ranges are consecutive, starting at start and ending at total — hence
non-overlapping and partitioning the interval from start to total. -/
def isConsecutivePartition (start : Nat) (rs : List Range) (total : Nat) :
    Bool :=
  match rs with
  | [] => decide (start = total)
  | r :: rest =>
    decide (r.1 = start) && decide (start ≤ r.2) &&
      isConsecutivePartition r.2 rest total

/-! ## Helper lemmas -/

theorem gatherRows_ok (mat : Matrix) (inds : List Nat)
    (h : ∀ i ∈ inds, i < mat.length) :
    gatherRows mat inds = .ok (inds.map (fun i => mat.getD i [])) := by
  have hall : inds.all (fun i => decide (i < mat.length)) = true := by
    simp only [List.all_eq_true, decide_eq_true_eq]
    exact h
  simp only [gatherRows, npIndex, hall, if_pos]
  rfl

theorem mem_single_range_lt (s e n i : Nat) (he : e ≤ n)
    (hi : i ∈ List.range' s (e - s)) : i < n := by
  rw [List.mem_range'_1] at hi
  omega

theorem lookup_get (rt : ActivationRanges) (i : Nat) (hi : i < rt.length)
    (hnd : (rt.map Prod.fst).Nodup) :
    List.lookup (rt[i]).1 rt = some (rt[i]).2 := by
  induction rt generalizing i with
  | nil => simp at hi
  | cons p rest ih =>
    cases i with
    | zero => simp [List.lookup]
    | succ j =>
      have hj : j < rest.length := by simpa using hi
      have hmem : ((rest[j]).1) ∈ rest.map Prod.fst := by
        exact List.mem_map_of_mem Prod.fst (rest.get_mem j hj)
      have hne : (rest[j]).1 ≠ p.1 := by
        intro hEq
        rw [List.map_cons, List.nodup_cons] at hnd
        exact hnd.1 (hEq ▸ hmem)
      have hstep : ((p :: rest)[j + 1]) = rest[j] := rfl
      rw [hstep]
      rw [List.lookup, beq_false_of_ne hne]
      exact ih j hj (by rw [List.map_cons, List.nodup_cons] at hnd; exact hnd.2)

/-- C1: For every key k present in the RangeTable with range (start, end),
indexing the reader with (k, "key") returns exactly the rows
start..end-1 of the active ActivationMatrix, in increasing row order. -/
theorem key_index_returns_range (rt : ActivationRanges) (mat : Matrix)
    (k s e : Nat) (hk : List.lookup k rt = some (s, e))
    (he : e ≤ mat.length) :
    getitem rt (some mat) (.int k) .key =
      .ok ((List.range' s (e - s)).map (fun i => mat.getD i [])) := by
  have hr : create_range_from_key rt (.list [k]) = .ok [(s, e)] := by
    simp [create_range_from_key, lookupKeys, hk, Except.map]
  have hinds : create_indices_from_range [(s, e)] =
      .ok (List.range' s (e - s)) := by
    simp [create_indices_from_range]
  have hg : getitem rt (some mat) (.int k) .key =
      create_range_from_key rt (.list [k]) >>= (fun ranges =>
        create_indices_from_range ranges >>= (fun inds =>
          gatherRows mat inds)) := rfl
  rw [hg, hr]
  show create_indices_from_range [(s, e)] >>= (fun inds =>
    gatherRows mat inds) = _
  rw [hinds]
  show gatherRows mat (List.range' s (e - s)) = _
  exact gatherRows_ok mat _ (fun i hi => mem_single_range_lt s e _ i he hi)

/-- Witness for C1 on the concrete table {0 ↦ (0,2), 3 ↦ (2,4)} and a
4-row matrix: key 3 selects rows 2 and 3. -/
theorem key_index_returns_range_witness :
    getitem [(0, (0, 2)), (3, (2, 4))]
        (some [[10], [11], [12], [13]]) (.int 3) .key =
      .ok ((List.range' 2 (4 - 2)).map
        (fun i => ([[10], [11], [12], [13]] : Matrix).getD i [])) :=
  key_index_returns_range [(0, (0, 2)), (3, (2, 4))]
    [[10], [11], [12], [13]] 3 2 4 (by decide) (by decide)

/-- C2: For every valid position i (0 ≤ i < number of entries in the
RangeTable), position-mode indexing index(i) returns the same rows as
key-mode indexing index((k, "key")) where k is the i-th key of the
RangeTable in its insertion order (keys of a dict are distinct). -/
theorem pos_index_eq_key_index (rt : ActivationRanges)
    (acts : Option Matrix) (i : Nat) (hi : i < rt.length)
    (hnd : (rt.map Prod.fst).Nodup) :
    getitem rt acts (.int i) .pos =
      getitem rt acts (.int (rt[i]).1) .key := by
  cases acts with
  | none => rfl
  | some mat =>
    have hlen : i < (rt.map Prod.snd).length := by simpa using hi
    have hp : posRanges rt (.list [i]) = .ok [(rt[i]).2] := by
      have hall : ([i].all (fun j => decide (j < (rt.map Prod.snd).length)))
          = true := by
        simp [hi]
      simp only [posRanges, npIndex, hall, if_pos, List.map]
      rw [List.getD_eq_getElem (rt.map Prod.snd) default hlen]
      simp
    have hkeys : create_range_from_key rt (.list [(rt[i]).1]) =
        .ok [(rt[i]).2] := by
      simp [create_range_from_key, lookupKeys,
        lookup_get rt i hi hnd, Except.map]
    have h1 : getitem rt (some mat) (.int i) .pos =
        posRanges rt (.list [i]) >>= (fun ranges =>
          create_indices_from_range ranges >>= (fun inds =>
            gatherRows mat inds)) := rfl
    have h2 : getitem rt (some mat) (.int (rt[i]).1) .key =
        create_range_from_key rt (.list [(rt[i]).1]) >>= (fun ranges =>
          create_indices_from_range ranges >>= (fun inds =>
            gatherRows mat inds)) := rfl
    rw [h1, h2, hp, hkeys]

/-- Witness for C2: on the table {0 ↦ (0,2), 3 ↦ (2,4)} with a 4-row
matrix, position 1 and key 3 select the same rows. -/
theorem pos_index_eq_key_index_witness :
    getitem [(0, (0, 2)), (3, (2, 4))]
        (some [[10], [11], [12], [13]]) (.int 1) .pos =
      getitem [(0, (0, 2)), (3, (2, 4))]
        (some [[10], [11], [12], [13]])
        (.int ((([(0, (0, 2)), (3, (2, 4))] :
          ActivationRanges).get ⟨1, by decide⟩)).1) .key :=
  pos_index_eq_key_index [(0, (0, 2)), (3, (2, 4))]
    (some [[10], [11], [12], [13]]) 1 (by decide) (by decide)

theorem gatherRows_error (mat : Matrix) (inds : List Nat)
    (h : ¬ inds.all (fun i => decide (i < mat.length)) = true) :
    gatherRows mat inds = .error "IndexError" := by
  simp only [gatherRows, npIndex, if_neg h]

theorem gatherRows_eq_ok (mat : Matrix) (inds : List Nat) (A : Matrix) :
    gatherRows mat inds = .ok A ↔
      (∀ i ∈ inds, i < mat.length) ∧
        A = inds.map (fun i => mat.getD i []) := by
  constructor
  · intro h
    by_cases hall : inds.all (fun i => decide (i < mat.length)) = true
    · have hb : ∀ i ∈ inds, i < mat.length := by
        intro i hi
        simpa using List.all_eq_true.mp hall i hi
      have hok := gatherRows_ok mat inds hb
      rw [hok] at h
      injection h with h
      exact ⟨hb, h.symm⟩
    · rw [gatherRows_error mat inds hall] at h
      cases h
  · rintro ⟨hb, rfl⟩
    exact gatherRows_ok mat inds hb

theorem gatherRows_append (mat : Matrix) (i1 i2 : List Nat) (A B : Matrix)
    (h1 : gatherRows mat i1 = .ok A) (h2 : gatherRows mat i2 = .ok B) :
    gatherRows mat (i1 ++ i2) = .ok (A ++ B) := by
  rw [gatherRows_eq_ok] at h1 h2 ⊢
  refine ⟨?_, ?_⟩
  · intro i hi
    rcases List.mem_append.mp hi with hm | hm
    · exact h1.1 i hm
    · exact h2.1 i hm
  · rw [List.map_append, ← h1.2, ← h2.2]

theorem getitem_key_int (rt : ActivationRanges) (mat : Matrix) (k : Nat) :
    getitem rt (some mat) (.int k) .key =
      match List.lookup k rt with
      | none => .error "KeyError"
      | some r => gatherRows mat (List.range' r.1 (r.2 - r.1)) := by
  have hg : getitem rt (some mat) (.int k) .key =
      create_range_from_key rt (.list [k]) >>= (fun ranges =>
        create_indices_from_range ranges >>= (fun inds =>
          gatherRows mat inds)) := rfl
  rw [hg]
  cases hl : List.lookup k rt with
  | none =>
    simp [create_range_from_key, lookupKeys, hl, Bind.bind, Except.bind]
  | some r =>
    simp [create_range_from_key, lookupKeys, hl, Except.map,
      Bind.bind, Except.bind, create_indices_from_range]

/-- C7: For every pair of keys k1 and k2 present in the RangeTable,
indexing with the list selector ([k1, k2], "key") returns exactly the
concatenation of the result of indexing with (k1, "key") followed by
the result of indexing with (k2, "key"). -/
theorem key_list_concat (rt : ActivationRanges) (mat : Matrix)
    (k1 k2 : Nat) (A B : Matrix)
    (h1 : getitem rt (some mat) (.int k1) .key = .ok A)
    (h2 : getitem rt (some mat) (.int k2) .key = .ok B) :
    getitem rt (some mat) (.list [k1, k2]) .key = .ok (A ++ B) := by
  rw [getitem_key_int] at h1 h2
  cases hl1 : List.lookup k1 rt with
  | none => rw [hl1] at h1; cases h1
  | some r1 =>
    rw [hl1] at h1
    cases hl2 : List.lookup k2 rt with
    | none => rw [hl2] at h2; cases h2
    | some r2 =>
      rw [hl2] at h2
      have hcr : create_range_from_key rt (.list [k1, k2]) =
          .ok [r1, r2] := by
        simp [create_range_from_key, lookupKeys, hl1, hl2, Except.map]
      have hg : getitem rt (some mat) (.list [k1, k2]) .key =
          create_range_from_key rt (.list [k1, k2]) >>= (fun ranges =>
            create_indices_from_range ranges >>= (fun inds =>
              gatherRows mat inds)) := rfl
      rw [hg, hcr]
      show create_indices_from_range [r1, r2] >>= (fun inds =>
        gatherRows mat inds) = _
      have hsplit : create_indices_from_range [r1, r2] =
          .ok (List.range' r1.1 (r1.2 - r1.1) ++
            List.range' r2.1 (r2.2 - r2.1)) := by
        simp [create_indices_from_range]
      rw [hsplit]
      show gatherRows mat (List.range' r1.1 (r1.2 - r1.1) ++
        List.range' r2.1 (r2.2 - r2.1)) = _
      exact gatherRows_append mat _ _ A B h1 h2

/-- Witness for C7 on the table {0 ↦ (0,2), 3 ↦ (2,4)} and a 4-row
matrix: indexing with the list [3, 0] concatenates the two key results. -/
theorem key_list_concat_witness :
    getitem [(0, (0, 2)), (3, (2, 4))]
        (some [[10], [11], [12], [13]]) (.list [3, 0]) .key =
      .ok ([[12], [13]] ++ [[10], [11]]) :=
  key_list_concat [(0, (0, 2)), (3, (2, 4))] [[10], [11], [12], [13]]
    3 0 [[12], [13]] [[10], [11]] (by rfl) (by rfl)

theorem le_foldr_max_of_mem (l : List Nat) (a : Nat) (ha : a ∈ l) :
    a ≤ l.foldr max 0 := by
  induction l with
  | nil => cases ha
  | cons b t ih =>
    rcases List.mem_cons.mp ha with rfl | hm
    · exact Nat.le_max_left _ _
    · exact le_trans (ih hm) (Nat.le_max_right _ _)

theorem mem_le_maxKey (rt : ActivationRanges) (p : Nat × Range)
    (hp : p ∈ rt) : p.1 ≤ maxKey rt :=
  le_foldr_max_of_mem _ _ (List.mem_map_of_mem Prod.fst hp)

theorem defaultStop_of_ne_nil (rt : ActivationRanges) (hne : rt ≠ []) :
    defaultStop rt = .ok (maxKey rt + 1) := by
  rw [defaultStop, if_neg]
  simp [List.isEmpty_iff, hne]

/-- C10: For every key-mode slice selector whose stop bound is the
explicit integer 0, the lookup behaves as if the stop bound were absent
(defaulting to one past the maximum key), returning every range whose
key is ≥ the start bound instead of an empty selection. -/
theorem slice_stop_zero_defaults (rt : ActivationRanges)
    (acts : Option Matrix) (a : Nat) (hne : rt ≠ []) :
    getitem rt acts (.slc (some a) (some 0) none) .key =
      getitem rt acts (.slc (some a) none none) .key ∧
    create_range_from_key rt (.slc (some a) (some 0) none) =
      .ok ((rt.filter (fun p => decide (a ≤ p.1))).map Prod.snd) := by
  constructor
  · rfl
  · have hds := defaultStop_of_ne_nil rt hne
    have hstep : create_range_from_key rt (.slc (some a) (some 0) none) =
        defaultStop rt >>= (fun e =>
          pure ((rt.filter (fun p => decide (pyTruthy (some a) 0 ≤ p.1) &&
            decide (p.1 < e))).map Prod.snd)) := rfl
    rw [hstep, hds]
    show Except.ok ((rt.filter (fun p =>
      decide (pyTruthy (some a) 0 ≤ p.1) &&
        decide (p.1 < maxKey rt + 1))).map Prod.snd) = _
    have hpt : pyTruthy (some a) 0 = a := by
      by_cases h : a = 0 <;> simp [pyTruthy, h]
    have hfc : rt.filter (fun p => decide (pyTruthy (some a) 0 ≤ p.1) &&
        decide (p.1 < maxKey rt + 1)) =
        rt.filter (fun p => decide (a ≤ p.1)) := by
      apply List.filter_congr
      intro p hp
      have hlt : p.1 < maxKey rt + 1 :=
        Nat.lt_succ_of_le (mem_le_maxKey rt p hp)
      simp [hpt, hlt]
    rw [hfc]

/-- Witness for C10 on the table {0 ↦ (0,2), 3 ↦ (2,4)}: the slice
1:0 in key mode selects the range of key 3, as the slice 1: does. -/
theorem slice_stop_zero_defaults_witness :
    getitem [(0, (0, 2)), (3, (2, 4))] (some [[10], [11], [12], [13]])
        (.slc (some 1) (some 0) none) .key =
      getitem [(0, (0, 2)), (3, (2, 4))] (some [[10], [11], [12], [13]])
        (.slc (some 1) none none) .key ∧
    create_range_from_key [(0, (0, 2)), (3, (2, 4))]
        (.slc (some 1) (some 0) none) =
      .ok ((([(0, (0, 2)), (3, (2, 4))] : ActivationRanges).filter
        (fun p => decide (1 ≤ p.1))).map Prod.snd) :=
  slice_stop_zero_defaults [(0, (0, 2)), (3, (2, 4))]
    (some [[10], [11], [12], [13]]) 1 (by decide)

theorem npSliceList_subset {α : Type} (xs : List α) (a b c : Nat) :
    ∀ x ∈ npSliceList xs a b c, x ∈ xs := by
  intro x hx
  rw [npSliceList, List.mem_filterMap] at hx
  obtain ⟨i, _, hget⟩ := hx
  exact List.get?_mem hget

theorem flat_indices_lt (ranges : List Range) (n : Nat)
    (hb : ∀ r ∈ ranges, r.2 ≤ n) :
    ∀ i ∈ ranges.flatMap (fun r => List.range' r.1 (r.2 - r.1)), i < n := by
  intro i hi
  rw [List.mem_flatMap] at hi
  obtain ⟨r, hr, hir⟩ := hi
  rw [List.mem_range'_1] at hir
  have := hb r hr
  omega

/-- Counterexample to C3: on the table {0 ↦ (0,2), 1 ↦ (2,4), 2 ↦ (4,6)}
with a 6-row matrix, the stepped slice 0:3:2 in position mode does not
fail: it returns the rows of the sequences at positions 0 and 2. -/
theorem stepped_slice_pos_counterexample :
    getitem [(0, (0, 2)), (1, (2, 4)), (2, (4, 6))]
        (some [[0], [1], [2], [3], [4], [5]])
        (.slc (some 0) (some 3) (some 2)) .pos =
      .ok [[0], [1], [4], [5]] := by rfl

/-- C3 (amended): a stepped slice in key mode always fails with the
unsupported-step assertion; position mode never performs that check:
a slice with step ≥ 2 is passed to numpy slicing of the range array
and (when the table ranges lie within the matrix) returns the rows of
the sequences at the stepped positions whenever the slice selects at
least one sequence, while an empty stepped selection fails with the
np.concatenate ValueError of line 146 instead of the step assertion. -/
theorem stepped_slice_key_fails_pos_no_check (rt : ActivationRanges)
    (mat : Matrix) (start stop : Option Nat) (st : Nat) (h2 : 2 ≤ st)
    (hb : ∀ p ∈ rt, p.2.2 ≤ mat.length) :
    getitem rt (some mat) (.slc start stop (some st)) .key =
      .error "Step slicing not supported for sen key index" ∧
    (npSliceList (rt.map Prod.snd) (start.getD 0)
        (stop.getD (rt.map Prod.snd).length) st ≠ [] →
      ∃ res, getitem rt (some mat) (.slc start stop (some st)) .pos =
        .ok res) ∧
    (npSliceList (rt.map Prod.snd) (start.getD 0)
        (stop.getD (rt.map Prod.snd).length) st = [] →
      getitem rt (some mat) (.slc start stop (some st)) .pos =
        .error "ValueError: need at least one array to concatenate") := by
  have hpr : posRanges rt (.slc start stop (some st)) =
      .ok (npSliceList (rt.map Prod.snd) (start.getD 0)
        (stop.getD (rt.map Prod.snd).length) st) := by
    rw [posRanges]
    show (if st = 0 then _ else _) = _
    rw [if_neg (by omega)]
    rfl
  have hgp : getitem rt (some mat) (.slc start stop (some st)) .pos =
      posRanges rt (.slc start stop (some st)) >>= (fun ranges =>
        create_indices_from_range ranges >>= (fun inds =>
          gatherRows mat inds)) := rfl
  refine ⟨?_, ?_, ?_⟩
  · have hcr : create_range_from_key rt (.slc start stop (some st)) =
        .error "Step slicing not supported for sen key index" := by
      rw [create_range_from_key]
      exact if_neg (by omega)
    have hg : getitem rt (some mat) (.slc start stop (some st)) .key =
        create_range_from_key rt (.slc start stop (some st)) >>=
          (fun ranges =>
            create_indices_from_range ranges >>= (fun inds =>
              gatherRows mat inds)) := rfl
    rw [hg, hcr]
    rfl
  · intro hne
    have hinds : create_indices_from_range
        (npSliceList (rt.map Prod.snd) (start.getD 0)
          (stop.getD (rt.map Prod.snd).length) st) =
        .ok ((npSliceList (rt.map Prod.snd) (start.getD 0)
          (stop.getD (rt.map Prod.snd).length) st).flatMap
            (fun r => List.range' r.1 (r.2 - r.1))) := by
      have hcond : ¬((npSliceList (rt.map Prod.snd) (start.getD 0)
          (stop.getD (rt.map Prod.snd).length) st).isEmpty = true) := by
        rw [List.isEmpty_iff]
        exact hne
      rw [create_indices_from_range, if_neg hcond]
    have hrb : ∀ r ∈ npSliceList (rt.map Prod.snd) (start.getD 0)
        (stop.getD (rt.map Prod.snd).length) st, r.2 ≤ mat.length := by
      intro r hr
      have hmem := npSliceList_subset _ _ _ _ r hr
      obtain ⟨p, hp, rfl⟩ := List.mem_map.mp hmem
      exact hb p hp
    have heq : getitem rt (some mat) (.slc start stop (some st)) .pos =
        .ok (((npSliceList (rt.map Prod.snd) (start.getD 0)
          (stop.getD (rt.map Prod.snd).length) st).flatMap
            (fun r => List.range' r.1 (r.2 - r.1))).map
          (fun i => mat.getD i [])) := by
      rw [hgp, hpr]
      show create_indices_from_range _ >>= (fun inds =>
        gatherRows mat inds) = _
      rw [hinds]
      show gatherRows mat _ = _
      exact gatherRows_ok mat _ (flat_indices_lt _ _ hrb)
    exact ⟨_, heq⟩
  · intro hemp
    rw [hgp, hpr]
    show create_indices_from_range _ >>= (fun inds =>
      gatherRows mat inds) = _
    rw [hemp]
    rfl

/-- Witness for the amended C3 on the three-sequence table with the
stepped slice 0:3:2, which selects positions 0 and 2. -/
theorem stepped_slice_key_fails_pos_no_check_witness :
    getitem [(0, (0, 2)), (1, (2, 4)), (2, (4, 6))]
        (some [[0], [1], [2], [3], [4], [5]])
        (.slc (some 0) (some 3) (some 2)) .key =
      .error "Step slicing not supported for sen key index" ∧
    (npSliceList (([(0, (0, 2)), (1, (2, 4)), (2, (4, 6))] :
          ActivationRanges).map Prod.snd) ((some 0).getD 0)
        ((some 3).getD ((([(0, (0, 2)), (1, (2, 4)), (2, (4, 6))] :
          ActivationRanges).map Prod.snd)).length) 2 ≠ [] →
      ∃ res, getitem [(0, (0, 2)), (1, (2, 4)), (2, (4, 6))]
        (some [[0], [1], [2], [3], [4], [5]])
        (.slc (some 0) (some 3) (some 2)) .pos = .ok res) ∧
    (npSliceList (([(0, (0, 2)), (1, (2, 4)), (2, (4, 6))] :
          ActivationRanges).map Prod.snd) ((some 0).getD 0)
        ((some 3).getD ((([(0, (0, 2)), (1, (2, 4)), (2, (4, 6))] :
          ActivationRanges).map Prod.snd)).length) 2 = [] →
      getitem [(0, (0, 2)), (1, (2, 4)), (2, (4, 6))]
        (some [[0], [1], [2], [3], [4], [5]])
        (.slc (some 0) (some 3) (some 2)) .pos =
        .error "ValueError: need at least one array to concatenate") :=
  stepped_slice_key_fails_pos_no_check
    [(0, (0, 2)), (1, (2, 4)), (2, (4, 6))]
    [[0], [1], [2], [3], [4], [5]] (some 0) (some 3) 2 (by decide)
    (by decide)

/-- C9: For every reader whose active identity is A with a loaded
matrix, assigning the activations cache None and then assigning the same
identity A again leaves the cached matrix None: the identity-change
check still sees A as the current identity, so no reload happens. -/
theorem assign_none_then_same_name_keeps_none
    (read : ActivationName → Option Matrix) (s : ReaderState)
    (a : ActivationName) (m : Matrix)
    (hname : s.activation_name = some a) (hm : s.activations = some m) :
    (set_activations read (set_activations read s none)
      (some a)).activations = none := by
  simp [set_activations, hname]

/-- Witness for C9 with identity (0, hx) and a loaded 1-row matrix. -/
theorem assign_none_then_same_name_keeps_none_witness :
    (set_activations (fun _ => some [[7]])
      (set_activations (fun _ => some [[7]])
        ⟨some (0, "hx"), some [[7]]⟩ none)
      (some (0, "hx"))).activations = none :=
  assign_none_then_same_name_keeps_none (fun _ => some [[7]])
    ⟨some (0, "hx"), some [[7]]⟩ (0, "hx") [[7]] rfl rfl

/-- C8: For every explicitly supplied subset size that is not the
entire-data sentinel -1 and violates 0 < subset_size ≤ sequence_count,
create_data_split fails with the validation assertion, and it does so
for every chunk stream alike: the chunk file is never read. -/
theorem invalid_subset_size_fails_before_load (labels : List Int)
    (chunks : List Chunk) (perm : List Nat) (s : Int) (r : ℚ)
    (hs : s ≠ -1) (hv : ¬(0 < s ∧ s ≤ (labels.length : Int))) :
    create_data_split labels chunks perm s r =
      .error
        "Size of subset must be positive and not bigger than the whole data set." := by
  rw [create_data_split, if_pos ⟨hs, hv⟩]

/-- Witness for C8: subset size 5 on a 2-label data set fails for a
chunk stream that would itself load fine. -/
theorem invalid_subset_size_fails_before_load_witness :
    create_data_split [1, 2] [[[9], [9]]] [0, 1] 5 (9 / 10) =
      .error
        "Size of subset must be positive and not bigger than the whole data set." :=
  invalid_subset_size_fails_before_load [1, 2] [[[9], [9]]] [0, 1] 5
    (9 / 10) (by decide) (by decide)

theorem lookup_of_mem (rt : ActivationRanges) (p : Nat × Range)
    (hp : p ∈ rt) (hnd : (rt.map Prod.fst).Nodup) :
    List.lookup p.1 rt = some p.2 := by
  induction rt with
  | nil => cases hp
  | cons q rest ih =>
    rw [List.map_cons, List.nodup_cons] at hnd
    rcases List.mem_cons.mp hp with rfl | hm
    · simp [List.lookup]
    · have hne : p.1 ≠ q.1 := by
        intro hEq
        exact hnd.1 (hEq ▸ List.mem_map_of_mem Prod.fst hm)
      rw [List.lookup, beq_false_of_ne hne]
      exact ih hm hnd.2

theorem consecutive_flat (rs : List Range) (start total : Nat)
    (h : isConsecutivePartition start rs total = true) :
    start ≤ total ∧ (∀ r ∈ rs, r.2 ≤ total) ∧
      rs.flatMap (fun r => List.range' r.1 (r.2 - r.1)) =
        List.range' start (total - start) := by
  induction rs generalizing start with
  | nil =>
    rw [isConsecutivePartition, decide_eq_true_eq] at h
    subst h
    simp
  | cons r rest ih =>
    rw [isConsecutivePartition, Bool.and_assoc, Bool.and_eq_true,
      Bool.and_eq_true, decide_eq_true_eq, decide_eq_true_eq] at h
    obtain ⟨h1, h2, h3⟩ := h
    obtain ⟨hle, hb, hflat⟩ := ih r.2 h3
    refine ⟨by omega, ?_, ?_⟩
    · intro q hq
      rcases List.mem_cons.mp hq with rfl | hm
      · omega
      · exact hb q hm
    · rw [List.flatMap_cons, hflat, h1]
      have := List.range'_append start (r.2 - start) (total - r.2) 1
      simp only [Nat.one_mul] at this
      have harg : start + (r.2 - start) = r.2 := by omega
      rw [harg] at this
      rw [show total - r.2 + (r.2 - start) = total - start by omega] at this
      exact this

theorem map_getD_range (l : Matrix) :
    (List.range l.length).map (fun i => l.getD i []) = l := by
  induction l with
  | nil => simp
  | cons a t ih =>
    rw [List.length_cons, List.range_succ_eq_map, List.map_cons,
      List.map_map]
    have hcomp : ((fun i => (a :: t).getD i []) ∘ Nat.succ) =
        (fun i => t.getD i []) := by
      funext i
      rfl
    rw [hcomp, ih]
    rfl

/-- C6: Under the RangeTable invariant that its ranges consecutively
partition the rows 0..total_rows of the matrix, concatenating the rows
gathered by key-mode indexing over all keys of the RangeTable in table
order reconstructs the entire ActivationMatrix, with no gaps and no
overlaps. -/
theorem all_keys_reconstruct (rt : ActivationRanges) (mat : Matrix)
    (hnd : (rt.map Prod.fst).Nodup)
    (hpart : isConsecutivePartition 0 (rt.map Prod.snd) mat.length
      = true) :
    ∃ parts : List Matrix,
      rt.map (fun p => getitem rt (some mat) (.int p.1) .key) =
        parts.map Except.ok ∧
      parts.flatten = mat := by
  obtain ⟨-, hb, hflat⟩ := consecutive_flat _ _ _ hpart
  refine ⟨rt.map (fun p =>
    (List.range' p.2.1 (p.2.2 - p.2.1)).map (fun i => mat.getD i [])),
    ?_, ?_⟩
  · rw [List.map_map]
    apply List.map_congr_left
    intro p hp
    have hlk := lookup_of_mem rt p hp hnd
    have hbp : p.2.2 ≤ mat.length :=
      hb p.2 (List.mem_map_of_mem Prod.snd hp)
    show getitem rt (some mat) (.int p.1) .key =
      Except.ok ((List.range' p.2.1 (p.2.2 - p.2.1)).map
        (fun i => mat.getD i []))
    rw [getitem_key_int, hlk]
    show gatherRows mat (List.range' p.2.1 (p.2.2 - p.2.1)) = _
    exact gatherRows_ok mat _
      (fun i hi => mem_single_range_lt p.2.1 p.2.2 _ i hbp hi)
  · show (rt.flatMap (fun p =>
      (List.range' p.2.1 (p.2.2 - p.2.1)).map (fun i => mat.getD i [])))
        = mat
    have hmf : rt.flatMap (fun p =>
        (List.range' p.2.1 (p.2.2 - p.2.1)).map (fun i => mat.getD i []))
        = (rt.flatMap (fun p =>
            List.range' p.2.1 (p.2.2 - p.2.1))).map
              (fun i => mat.getD i []) := by
      rw [List.map_flatMap]
    rw [hmf]
    have hfm : rt.flatMap (fun p => List.range' p.2.1 (p.2.2 - p.2.1)) =
        (rt.map Prod.snd).flatMap
          (fun r => List.range' r.1 (r.2 - r.1)) := by
      rw [List.flatMap_map]
    rw [hfm, hflat, Nat.sub_zero, ← List.range_eq_range']
    exact map_getD_range mat

/-- Witness for C6 on the spec example table
{0 ↦ (0,3), 1 ↦ (3,5), 5 ↦ (5,8)} over an 8-row matrix. -/
theorem all_keys_reconstruct_witness :
    ∃ parts : List Matrix,
      ([(0, (0, 3)), (1, (3, 5)), (5, (5, 8))] :
          ActivationRanges).map (fun p =>
        getitem [(0, (0, 3)), (1, (3, 5)), (5, (5, 8))]
          (some [[0], [1], [2], [3], [4], [5], [6], [7]])
          (.int p.1) .key) = parts.map Except.ok ∧
      parts.flatten = [[0], [1], [2], [3], [4], [5], [6], [7]] :=
  all_keys_reconstruct [(0, (0, 3)), (1, (3, 5)), (5, (5, 8))]
    [[0], [1], [2], [3], [4], [5], [6], [7]] (by decide) (by decide)

theorem broadcastRows_self (c : Chunk) (w : Nat)
    (hw : ∀ row ∈ c, row.length = w) : broadcastRows c w = some c := by
  induction c with
  | nil => rfl
  | cons r t ih =>
    have hr : broadcastRow r w = some r := by
      rw [broadcastRow, if_pos (hw r (by simp))]
    rw [broadcastRows, hr, ih (fun row hm => hw row (List.mem_cons_of_mem r hm))]

theorem setSlice_fit (mat : Matrix) (n : Nat) (c : Chunk) (w : Nat)
    (hfit : n + c.length ≤ mat.length) (hw : ∀ row ∈ c, row.length = w) :
    setSlice mat n c w =
      some (mat.take n ++ c ++ mat.drop (n + c.length)) := by
  have hlo : min n mat.length = n := by omega
  rw [setSlice]
  simp only [hlo]
  rw [if_pos (by omega), broadcastRows_self c w hw]
  rfl

theorem setSlice_fit_length (mat : Matrix) (n : Nat) (c : Chunk)
    (hfit : n + c.length ≤ mat.length) :
    (mat.take n ++ c ++ mat.drop (n + c.length)).length = mat.length := by
  simp only [List.length_append, List.length_take, List.length_drop]
  omega

theorem setSlice_overflow (mat : Matrix) (n : Nat) (c : Chunk) (w : Nat)
    (hlt : n < mat.length) (hover : mat.length < n + c.length) :
    setSlice mat n c w = none := by
  have h1 : ¬ (c.length = min (n + c.length) mat.length - min n mat.length) := by
    omega
  have h2 : ¬ (c.length = 1) := by omega
  rw [setSlice]
  simp only [if_neg h1, if_neg h2]
  rfl

theorem read_loop_spec (data_len w : Nat) (chunks : List Chunk) :
    ∀ (n : Nat) (m : Matrix), m.length = data_len →
    (∀ c ∈ chunks, c ≠ [] ∧ ∀ row ∈ c, row.length = w) →
    ((n + totalRows chunks ≤ data_len →
      ∃ m2, read_loop data_len chunks (some (w, m)) n = .ok (some m2)) ∧
    ((∃ j, j < chunks.length ∧ n + rowsBefore chunks j < data_len ∧
        data_len < n + rowsBefore chunks (j + 1)) →
      read_loop data_len chunks (some (w, m)) n =
        .error "ValueError: could not broadcast")) := by
  induction chunks with
  | nil =>
    intro n m hm hw
    refine ⟨fun _ => ⟨m, rfl⟩, ?_⟩
    rintro ⟨j, hj, -⟩
    simp at hj
  | cons c cs ih =>
    intro n m hm hw
    have hwc := hw c (by simp)
    have hwcs : ∀ q ∈ cs, q ≠ [] ∧ ∀ row ∈ q, row.length = w :=
      fun q hq => hw q (List.mem_cons_of_mem c hq)
    constructor
    · intro hle
      have htot : totalRows (c :: cs) = c.length + totalRows cs := by
        simp [totalRows]
      have hfit : n + c.length ≤ data_len := by omega
      have hset := setSlice_fit m n c w (hm ▸ hfit) hwc.2
      have hstep : read_loop data_len (c :: cs) (some (w, m)) n =
          read_loop data_len cs
            (some (w, m.take n ++ c ++ m.drop (n + c.length)))
            (n + c.length) := by
        rw [read_loop, hset]
      rw [hstep]
      have hm2 : (m.take n ++ c ++ m.drop (n + c.length)).length =
          data_len := by
        rw [setSlice_fit_length m n c (hm ▸ hfit)]
        exact hm
      exact (ih (n + c.length) _ hm2 hwcs).1 (by omega)
    · rintro ⟨j, hj, hlo, hhi⟩
      cases j with
      | zero =>
        have hb0 : rowsBefore (c :: cs) 0 = 0 := by
          simp [rowsBefore, totalRows]
        have hb1 : rowsBefore (c :: cs) 1 = c.length := by
          simp [rowsBefore, totalRows]
        rw [hb0] at hlo
        rw [hb1] at hhi
        have hset := setSlice_overflow m n c w
          (by omega) (by omega)
        rw [read_loop, hset]
      | succ j2 =>
        have hbs : rowsBefore (c :: cs) (j2 + 1) =
            c.length + rowsBefore cs j2 := by
          simp [rowsBefore, totalRows]
        have hbs2 : rowsBefore (c :: cs) (j2 + 2) =
            c.length + rowsBefore cs (j2 + 1) := by
          simp [rowsBefore, totalRows]
        rw [hbs] at hlo
        rw [hbs2] at hhi
        have hfit : n + c.length ≤ data_len := by
          have : rowsBefore cs j2 ≥ 0 := Nat.zero_le _
          omega
        have hset := setSlice_fit m n c w (hm ▸ hfit) hwc.2
        have hstep : read_loop data_len (c :: cs) (some (w, m)) n =
            read_loop data_len cs
              (some (w, m.take n ++ c ++ m.drop (n + c.length)))
              (n + c.length) := by
          rw [read_loop, hset]
        rw [hstep]
        have hm2 : (m.take n ++ c ++ m.drop (n + c.length)).length =
            data_len := by
          rw [setSlice_fit_length m n c (hm ▸ hfit)]
          exact hm
        refine ((ih (n + c.length) _ hm2 hwcs).2 ⟨j2, ?_, ?_, ?_⟩)
        · simpa using Nat.lt_of_succ_lt_succ hj
        · omega
        · omega

/-- Counterexample to C4: loading a stream whose single chunk holds 2
rows while sequence_count is 3 does not fail: read_activations returns
a 3-row matrix whose last row was never written (np.empty contents,
modelled as zeros). -/
theorem short_stream_no_error :
    read_activations 3 [[[1, 2], [3, 4]]] =
      .ok (some [[1, 2], [3, 4], [0, 0]]) := by rfl

/-- C4 (amended): for a chunk stream of non-empty chunks whose rows all
have the width of the first chunk, read_activations fails (with the
numpy broadcast ValueError) when some chunk strictly straddles the
sequence_count boundary, i.e. the rows accumulated before it are fewer
than sequence_count and the rows accumulated through it exceed it; but
a stream whose total row count is at most sequence_count loads without
any error — a total below sequence_count is NOT detected. -/
theorem read_activations_row_check (data_len : Nat) (chunks : List Chunk)
    (w : Nat) (hw : ∀ c ∈ chunks, c ≠ [] ∧ ∀ row ∈ c, row.length = w) :
    (totalRows chunks ≤ data_len →
      ∃ m, read_activations data_len chunks = .ok m) ∧
    ((∃ j, j < chunks.length ∧ rowsBefore chunks j < data_len ∧
        data_len < rowsBefore chunks (j + 1)) →
      read_activations data_len chunks =
        .error "ValueError: could not broadcast") := by
  cases chunks with
  | nil =>
    refine ⟨fun _ => ⟨none, rfl⟩, ?_⟩
    rintro ⟨j, hj, -⟩
    simp at hj
  | cons c cs =>
    have hwc := hw c (by simp)
    have hw0 : (c.headD []).length = w := by
      cases c with
      | nil => exact absurd rfl hwc.1
      | cons r t => exact hwc.2 r (by simp)
    have hfirst : read_activations data_len (c :: cs) =
        read_loop data_len (c :: cs)
          (some (w, List.replicate data_len (List.replicate w 0))) 0 := by
      rw [read_activations]
      rw [read_loop, read_loop]
      rw [hw0]
    have hrepl : (List.replicate data_len
        (List.replicate w (0 : Int))).length = data_len := by
      simp
    have hspec := read_loop_spec data_len w (c :: cs) 0 _ hrepl hw
    constructor
    · intro hle
      obtain ⟨m2, hm2⟩ := hspec.1 (by omega)
      rw [hfirst, hm2]
      exact ⟨some m2, rfl⟩
    · rintro ⟨j, hj, hlo, hhi⟩
      rw [hfirst]
      exact hspec.2 ⟨j, hj, by omega, by omega⟩

/-- Witness for the amended C4: a 2-row chunk followed by a 2-row chunk
straddles sequence_count 3 and fails, while the same first chunk alone
(2 rows ≤ 3) loads without error. -/
theorem read_activations_row_check_witness :
    (totalRows [[[1, 2], [3, 4]]] ≤ 3 →
      ∃ m, read_activations 3 [[[1, 2], [3, 4]]] = .ok m) ∧
    ((∃ j, j < ([[[1, 2], [3, 4]]] : List Chunk).length ∧
        rowsBefore [[[1, 2], [3, 4]]] j < 3 ∧
        3 < rowsBefore [[[1, 2], [3, 4]]] (j + 1)) →
      read_activations 3 [[[1, 2], [3, 4]]] =
        .error "ValueError: could not broadcast") :=
  read_activations_row_check 3 [[[1, 2], [3, 4]]] 2 (by decide)

theorem pyInt_nonneg_floor (q : ℚ) (h : 0 ≤ q) : pyInt q = ⌊q⌋ := by
  rw [pyInt, Rat.floor_def, Int.tdiv_eq_ediv (Rat.num_nonneg.mpr h)
    (by positivity)]

theorem take_clamp {α : Type} (l : List α) (a : Nat) :
    l.take (min a l.length) = l.take a := by
  rcases le_total a l.length with h | h
  · rw [min_eq_left h]
  · rw [min_eq_right h, List.take_length, List.take_of_length_le h]

theorem drop_clamp {α : Type} (l : List α) (a : Nat) :
    l.drop (min a l.length) = l.drop a := by
  rcases le_total a l.length with h | h
  · rw [min_eq_left h]
  · rw [min_eq_right h, List.drop_length, List.drop_of_length_le h]

theorem pyTake_nonneg {α : Type} (l : List α) (i : Int) (h : 0 ≤ i) :
    pyTake l i = l.take i.toNat := by
  rw [pyTake, pyClampIndex, if_neg (by omega), take_clamp]

theorem pyDrop_nonneg {α : Type} (l : List α) (i : Int) (h : 0 ≤ i) :
    pyDrop l i = l.drop i.toNat := by
  rw [pyDrop, pyClampIndex, if_neg (by omega), drop_clamp]

theorem gatherLabels_ok (labels : List Int) (inds : List Nat)
    (h : ∀ i ∈ inds, i < labels.length) :
    gatherLabels labels inds =
      .ok (inds.map (fun i => labels.getD i 0)) := by
  have hall : inds.all (fun i => decide (i < labels.length)) = true := by
    simp only [List.all_eq_true, decide_eq_true_eq]
    exact h
  simp only [gatherLabels, npIndex, hall, if_pos]
  rfl

theorem broadcastRows_length (c : Chunk) (w : Nat)
    (rows : List (List Int)) (h : broadcastRows c w = some rows) :
    rows.length = c.length := by
  induction c generalizing rows with
  | nil =>
    rw [broadcastRows] at h
    cases h
    rfl
  | cons r t ih =>
    rw [broadcastRows] at h
    cases hr : broadcastRow r w with
    | none => rw [hr] at h; cases h
    | some r2 =>
      rw [hr] at h
      cases ht : broadcastRows t w with
      | none => rw [ht] at h; cases h
      | some t2 =>
        rw [ht] at h
        cases h
        simp [ih t2 ht]

theorem setSlice_length (mat : Matrix) (n : Nat) (c : Chunk) (w : Nat)
    (m2 : Matrix) (h : setSlice mat n c w = some m2) :
    m2.length = mat.length := by
  simp only [setSlice] at h
  split at h
  case isTrue hcase =>
    cases hbr : broadcastRows c w with
    | none => rw [hbr] at h; cases h
    | some rows =>
      rw [hbr] at h
      cases h
      have hrl := broadcastRows_length c w rows hbr
      simp only [List.length_append, List.length_take, List.length_drop]
      omega
  case isFalse hcase =>
    split at h
    case isTrue hone =>
      cases hbr : broadcastRow (c.headD []) w with
      | none => rw [hbr] at h; cases h
      | some r2 =>
        rw [hbr] at h
        cases h
        simp only [List.length_append, List.length_take,
          List.length_drop, List.length_replicate]
        omega
    case isFalse => cases h

theorem read_loop_length (data_len : Nat) (chunks : List Chunk) :
    ∀ (w : Nat) (mm : Matrix) (n : Nat) (m : Matrix),
    mm.length = data_len →
    read_loop data_len chunks (some (w, mm)) n = .ok (some m) →
    m.length = data_len := by
  induction chunks with
  | nil =>
    intro w mm n m hmm h
    rw [read_loop] at h
    injection h with h2
    injection h2 with h3
    rw [← h3]
    exact hmm
  | cons c cs ih =>
    intro w mm n m hmm h
    rw [read_loop] at h
    cases hset : setSlice mm n c w with
    | none => rw [hset] at h; cases h
    | some m1 =>
      rw [hset] at h
      exact ih w m1 (n + c.length) m
        (by rw [setSlice_length mm n c w m1 hset]; exact hmm) h

theorem read_activations_length (data_len : Nat) (chunks : List Chunk)
    (m : Matrix) (h : read_activations data_len chunks = .ok (some m)) :
    m.length = data_len := by
  cases chunks with
  | nil =>
    rw [read_activations, read_loop] at h
    cases h
  | cons c cs =>
    rw [read_activations, read_loop] at h
    cases hset : setSlice
        (List.replicate data_len (List.replicate (c.headD []).length 0))
        0 c (c.headD []).length with
    | none => rw [hset] at h; cases h
    | some m1 =>
      rw [hset] at h
      refine read_loop_length data_len cs _ m1 (0 + c.length) m ?_ h
      rw [setSlice_length _ 0 c _ m1 hset]
      simp

theorem split_data_ok (labels : List Int) (m : Matrix) (perm : List Nat)
    (s : Int) (r : ℚ) (hr0 : 0 ≤ r)
    (hmlen : m.length = labels.length)
    (hmem : ∀ i ∈ perm, i < labels.length) :
    split_data labels m perm s r =
      .ok ⟨(perm.take (⌊(dataSize labels s : ℚ) * r⌋).toNat).map
            (fun i => m.getD i []),
          (perm.take (⌊(dataSize labels s : ℚ) * r⌋).toNat).map
            (fun i => labels.getD i 0),
          (perm.drop (⌊(dataSize labels s : ℚ) * r⌋).toNat).map
            (fun i => m.getD i []),
          (perm.drop (⌊(dataSize labels s : ℚ) * r⌋).toNat).map
            (fun i => labels.getD i 0)⟩ := by
  have hq : 0 ≤ (dataSize labels s : ℚ) * r := by positivity
  have hfl : 0 ≤ ⌊(dataSize labels s : ℚ) * r⌋ := Int.floor_nonneg.mpr hq
  have hpi : pyInt ((dataSize labels s : ℚ) * r) =
      ⌊(dataSize labels s : ℚ) * r⌋ := pyInt_nonneg_floor _ hq
  have htk : pyTake perm (pyInt ((dataSize labels s : ℚ) * r)) =
      perm.take (⌊(dataSize labels s : ℚ) * r⌋).toNat := by
    rw [hpi, pyTake_nonneg _ _ hfl]
  have hdk : pyDrop perm (pyInt ((dataSize labels s : ℚ) * r)) =
      perm.drop (⌊(dataSize labels s : ℚ) * r⌋).toNat := by
    rw [hpi, pyDrop_nonneg _ _ hfl]
  have hbm : ∀ i ∈ perm, i < m.length := fun i hi => by
    rw [hmlen]
    exact hmem i hi
  have hg1 := gatherRows_ok m
    (perm.take (⌊(dataSize labels s : ℚ) * r⌋).toNat)
    (fun i hi => hbm i (List.take_subset _ _ hi))
  have hg2 := gatherLabels_ok labels
    (perm.take (⌊(dataSize labels s : ℚ) * r⌋).toNat)
    (fun i hi => hmem i (List.take_subset _ _ hi))
  have hg3 := gatherRows_ok m
    (perm.drop (⌊(dataSize labels s : ℚ) * r⌋).toNat)
    (fun i hi => hbm i (List.drop_subset _ _ hi))
  have hg4 := gatherLabels_ok labels
    (perm.drop (⌊(dataSize labels s : ℚ) * r⌋).toNat)
    (fun i hi => hmem i (List.drop_subset _ _ hi))
  simp only [split_data]
  rw [htk, hdk, hg1, hg2, hg3, hg4]
  rfl

/-- C5: For every valid call to create_data_split with subset size s
(or the full sequence_count for the -1 sentinel) and split ratio r, and
any permutation of range(data_size) as the random draw, the returned
train and test inputs satisfy len(train_x) + len(test_x) = data_size,
the train and test row-index sets are disjoint, and the partition point
equals floor(data_size * r). The ratio is modelled as an exact
rational. -/
theorem create_data_split_spec (labels : List Int) (chunks : List Chunk)
    (perm : List Nat) (s : Int) (r : ℚ) (m : Matrix)
    (hvalid : s = -1 ∨ (0 < s ∧ s ≤ (labels.length : Int)))
    (hperm : perm.Perm (List.range (dataSize labels s)))
    (hread : read_activations labels.length chunks = .ok (some m))
    (hr0 : 0 ≤ r) (hr1 : r ≤ 1) :
    ∃ d, create_data_split labels chunks perm s r = .ok d ∧
      d.train_x.length + d.test_x.length = dataSize labels s ∧
      List.Disjoint (pyTake perm (pyInt ((dataSize labels s : ℚ) * r)))
        (pyDrop perm (pyInt ((dataSize labels s : ℚ) * r))) ∧
      d.train_x.length = (⌊(dataSize labels s : ℚ) * r⌋).toNat := by
  have hcond : ¬(s ≠ -1 ∧
      ¬(0 < s ∧ s ≤ (labels.length : Int))) := by
    rcases hvalid with h | h
    · exact fun hc => hc.1 h
    · exact fun hc => hc.2 h
  have hds : dataSize labels s ≤ labels.length := by
    rcases hvalid with h | h
    · rw [dataSize, if_pos h]
    · rw [dataSize, if_neg (by omega)]
      omega
  have hm := read_activations_length labels.length chunks m hread
  have hplen : perm.length = dataSize labels s := by
    rw [hperm.length_eq, List.length_range]
  have hmemp : ∀ i ∈ perm, i < labels.length := by
    intro i hi
    have : i ∈ List.range (dataSize labels s) := hperm.mem_iff.mp hi
    rw [List.mem_range] at this
    omega
  have hq : 0 ≤ (dataSize labels s : ℚ) * r := by positivity
  have hfl : 0 ≤ ⌊(dataSize labels s : ℚ) * r⌋ := Int.floor_nonneg.mpr hq
  have hkle : (⌊(dataSize labels s : ℚ) * r⌋).toNat ≤
      dataSize labels s := by
    have hle : (dataSize labels s : ℚ) * r ≤ (dataSize labels s : ℚ) :=
      mul_le_of_le_one_right (by positivity) hr1
    have := Int.floor_le_floor hle
    rw [Int.floor_natCast] at this
    omega
  have hsd := split_data_ok labels m perm s r hr0 hm hmemp
  have heq : create_data_split labels chunks perm s r =
      split_data labels m perm s r := by
    simp only [create_data_split]
    rw [if_neg hcond, hread]
    rfl
  refine ⟨_, heq.trans hsd, ?_, ?_, ?_⟩
  · simp only [List.length_map, List.length_take, List.length_drop]
    omega
  · have hnd : perm.Nodup :=
      (hperm.nodup_iff).mpr (List.nodup_range _)
    have hsplit := List.nodup_append.mp
      (by rw [List.take_append_drop
        ((⌊(dataSize labels s : ℚ) * r⌋).toNat) perm]; exact hnd)
    have hpi : pyInt ((dataSize labels s : ℚ) * r) =
        ⌊(dataSize labels s : ℚ) * r⌋ := pyInt_nonneg_floor _ hq
    rw [hpi, pyTake_nonneg _ _ hfl, pyDrop_nonneg _ _ hfl]
    exact hsplit.2.2
  · simp only [List.length_map, List.length_take]
    omega

/-- Witness for C5: four labels, a 4-row single-chunk stream, the
permutation [2,0,3,1], the full-data sentinel and ratio 9/10: the split
point is 3 and the conjuncts hold. -/
theorem create_data_split_spec_witness :
    ∃ d, create_data_split [10, 20, 30, 40] [[[1], [2], [3], [4]]]
        [2, 0, 3, 1] (-1) (9 / 10) = .ok d ∧
      d.train_x.length + d.test_x.length =
        dataSize [10, 20, 30, 40] (-1) ∧
      List.Disjoint
        (pyTake [2, 0, 3, 1]
          (pyInt ((dataSize [10, 20, 30, 40] (-1) : ℚ) * (9 / 10))))
        (pyDrop [2, 0, 3, 1]
          (pyInt ((dataSize [10, 20, 30, 40] (-1) : ℚ) * (9 / 10)))) ∧
      d.train_x.length =
        (⌊(dataSize [10, 20, 30, 40] (-1) : ℚ) * (9 / 10)⌋).toNat :=
  create_data_split_spec [10, 20, 30, 40] [[[1], [2], [3], [4]]]
    [2, 0, 3, 1] (-1) (9 / 10) [[1], [2], [3], [4]]
    (Or.inl rfl) (by decide) (by rfl) (by norm_num) (by norm_num)

end ActivationReader
